import Mathlib

/-!
Verification of the name-normalization / aggregation / geo-merge pipeline of
the GovHack-TheGamblersReport repository (module `src/lib/data.ts`).

The shallow embedding models:
 - a JS scalar cell value (`Value`): string, finite number (modelled as an
   exact integer, the claims only involve integral data), NaN, null, undefined;
 - a row (`Row`) as an association list from column name to `Value`
   (JS object semantics: first binding wins on lookup, keys in insertion order);
 - `normalizeName`, `detectLgaColumn`, `detectValueColumns`,
   `aggregateByLga`, `aggregateByLgaWithMapping`, `mergeMetricsIntoGeoJSON`
   translated function-for-function from the source;
 - the JS `Map` / plain-object containers as association lists with
   insertion-order preserving `alset` (update-in-place on an existing key,
   append for a new key), matching JS Map/object key ordering.

JS primitives used by the source (`String(x)`, `Number(x)`, `x.trim()`,
`.toUpperCase()`, truthiness) are modelled explicitly below; numbers are
exact integers, so JS float rounding is outside the model.
-/

/-- A JS scalar cell value as produced by the CSV/XLSX input adapter
(the spec's data model: string, number, or absent/null).  `vnum` is a finite
JS number modelled as an exact integer; `vnan` is a non-finite number (NaN). -/
inductive Value where
  | vundefined
  | vnull
  | vnum (n : Int)
  | vnan
  | vstr (s : String)
deriving DecidableEq, Repr

/-- JS `String(x)` coercion on a `Value` (`String(null) = "null"` etc.;
for `vnum` the decimal rendering of the integer, as JS renders integral
doubles). -/
def jsToString : Value → String
  | .vundefined => "undefined"
  | .vnull => "null"
  | .vnum n => toString n
  | .vnan => "NaN"
  | .vstr s => s

/-- Digits of the decimal numeral, most significant first, with explicit fuel
so that the definition is structurally recursive (and so computes by
reduction); `decimalDigits` supplies sufficient fuel. -/
def decimalDigitsAux : Nat → Nat → List Char
  | 0, _ => []
  | fuel + 1, n =>
    if n < 10 then [Char.ofNat (48 + n)]
    else decimalDigitsAux fuel (n / 10) ++ [Char.ofNat (48 + n % 10)]

/-- Digits of the decimal numeral, most significant first.  Used to build the
JS template-string rendering of `i + 1` in the `metric_` keys. -/
def decimalDigits (n : Nat) : List Char :=
  decimalDigitsAux (n + 1) n

/-- Decimal string of a natural number (the JS rendering used in
template literals such as `metric_N`). -/
def decimalStr (n : Nat) : String :=
  String.mk (decimalDigits n)

/-- Drop leading and trailing whitespace of a character list: the JS
`String.prototype.trim` on the whitespace characters the model uses. -/
def trimWs (l : List Char) : List Char :=
  ((l.dropWhile Char.isWhitespace).reverse.dropWhile Char.isWhitespace).reverse

/-- JS `s.trim()`. -/
def jsTrim (s : String) : String := String.mk (trimWs s.data)

/-- Whether the first character list is an initial segment of the second. -/
def listHasPre : List Char → List Char → Bool
  | [], _ => true
  | _ :: _, [] => false
  | a :: t, b :: u => a == b && listHasPre t u

/-- Whether the pattern occurs as a contiguous run of the second list. -/
def listContainsSub (pat : List Char) : List Char → Bool
  | [] => pat.isEmpty
  | b :: rest => listHasPre pat (b :: rest) || listContainsSub pat rest

/-- Parse an optionally signed decimal integer literal, the fragment of the
JS `Number(string)` grammar that the integer-valued model needs; any other
nonempty string is NaN (`none`). -/
def parseDecimal? (s : String) : Option Int :=
  let digitsToNat? : List Char → Option Nat := fun l =>
    l.foldl (fun acc c =>
      acc.bind (fun n => if 48 ≤ c.toNat ∧ c.toNat ≤ 57 then some (n * 10 + (c.toNat - 48)) else none))
      (some 0)
  match s.data with
  | [] => none
  | '-' :: rest => if rest.isEmpty then none else (digitsToNat? rest).map (fun n => -(n : Int))
  | '+' :: rest => if rest.isEmpty then none else (digitsToNat? rest).map (fun n => (n : Int))
  | l => (digitsToNat? l).map (fun n => (n : Int))

/-- JS `Number(x)` coercion, `none` meaning a non-finite result
(`Number(undefined) = NaN`, `Number(null) = 0`, `Number("") = 0`,
`Number("  12 ") = 12`, `Number("N/A") = NaN`). -/
def jsToNumber : Value → Option Int
  | .vundefined => none
  | .vnull => some 0
  | .vnum n => some n
  | .vnan => none
  | .vstr s => let t := jsTrim s; if t = "" then some 0 else parseDecimal? t

/-- JS truthiness of a cell value (empty string, 0, NaN, null, undefined are
falsy). -/
def truthy : Value → Bool
  | .vundefined => false
  | .vnull => false
  | .vnum n => n != 0
  | .vnan => false
  | .vstr s => s != ""

/-- The character class of the source's regex `/[A-Z0-9 ]/`, by code point. -/
def isKeepChar (c : Char) : Bool :=
  (65 ≤ c.toNat && c.toNat ≤ 90) || (48 ≤ c.toNat && c.toNat ≤ 57) || c.toNat == 32

/-- Drop leading and trailing spaces of a character list.  This models the
final `.trim()` of `normalizeName`: at that point the string contains only
characters of `[A-Z0-9 ]`, so the single space is the only whitespace a JS
`trim` can remove. -/
def trimSpaces (l : List Char) : List Char :=
  ((l.dropWhile (· == ' ')).reverse.dropWhile (· == ' ')).reverse

/-- Source `normalizeName`: null/undefined become the empty string, any other
value is string-coerced, uppercased, filtered to `[A-Z0-9 ]` and trimmed. -/
def normalizeName (s : Value) : String :=
  match s with
  | .vnull => ""
  | .vundefined => ""
  | v => String.mk (trimSpaces (((jsToString v).data.map Char.toUpper).filter isKeepChar))

/-- A row: column name to cell value, JS-object semantics. -/
abbrev Row := List (String × Value)

/-- Association-list lookup (`m.get(k)` / `obj[k]` as an `Option`);
first binding wins, matching JS objects and Maps which hold one binding
per key. -/
def alget {α : Type} (m : List (String × α)) (k : String) : Option α :=
  (m.find? (fun p => p.1 == k)).map (fun p => p.2)

/-- Association-list update (`m.set(k, v)` / `obj[k] = v`): replace the value
in place if the key is bound (position preserved, as in JS, which holds one
binding per key), else append. -/
def alset {α : Type} (m : List (String × α)) (k : String) (v : α) : List (String × α) :=
  match m with
  | [] => [(k, v)]
  | p :: t => if p.1 == k then (k, v) :: t else p :: alset t k v

/-- Keys of an association list in order (`Object.keys`). -/
def alkeys {α : Type} (m : List (String × α)) : List String := m.map (fun p => p.1)

/-- JS property read `r[c]`: an unbound column reads as `undefined`. -/
def rowGet (r : Row) (c : String) : Value :=
  (alget r c).getD .vundefined

/-- Case-insensitive substring test, modelling `/pat/i.test(s)` for a literal
lowercase pattern: the pattern occurs as a substring of the lowercased
subject. -/
def containsCI (pat s : String) : Bool :=
  listContainsSub pat.data (s.data.map Char.toLower)

/-- Source `detectLgaColumn`: fixed list of exact header candidates, then the
first header containing "lga" case-insensitively, else none. -/
def detectLgaColumn (rows : List Row) : Option String :=
  match rows with
  | [] => none
  | r0 :: _ =>
    let candidates := ["LGA_NAME", "LGA", "LGA Name", "LGA_NAME_2021",
      "Local Government Area", "LG A", "lga", "lga_name", "name",
      "LGA_NAME_2016", "AREA_NAME"]
    let cols := alkeys r0
    match candidates.find? (fun c => cols.contains c) with
    | some c => some c
    | none => cols.find? (fun c => containsCI "lga" c)

/-- JS `typeof x === 'number'` (both finite numbers and NaN are numbers). -/
def Value.isNumberType : Value → Bool
  | .vnum _ => true
  | .vnan => true
  | _ => false

/-- The source's value-column vocabulary regex
`/(exp|loss|amount|value|net|total)/i`. -/
def hasValueVocab (c : String) : Bool :=
  containsCI "exp" c || containsCI "loss" c || containsCI "amount" c ||
    containsCI "value" c || containsCI "net" c || containsCI "total" c

/-- Source `detectValueColumns`: numeric columns (some row holds a JS number),
those matching the vocabulary preferred, else the first numeric column. -/
def detectValueColumns (rows : List Row) : List String :=
  match rows with
  | [] => []
  | r0 :: _ =>
    let cols := alkeys r0
    let numeric := cols.filter (fun c => rows.any (fun r => (rowGet r c).isNumberType))
    let priority := numeric.filter hasValueVocab
    if priority.isEmpty then numeric.take 1 else priority

/-- A per-region bucket held in the aggregation map: display name and the
`metric_N` record. -/
structure Bucket where
  name : String
  metrics : List (String × Int)
deriving DecidableEq, Repr

/-- An element of the aggregation result: `{ key, name, metrics }`. -/
structure AggregatedRegion where
  key : String
  name : String
  metrics : List (String × Int)
deriving DecidableEq, Repr

/-- A per-file column mapping, as consumed by `aggregateByLgaWithMapping`. -/
structure FileMapping where
  name : String
  rows : List Row
  lgaCol : Option String
  valueCols : List String
deriving DecidableEq, Repr

/-- The synthetic positional metric key, `metric_` followed by the decimal
rendering of the index (`\x7bmetric_$\x7b i \x7d\x7d` in the source template
literal). -/
def metricKey (i : Nat) : String := "metric_" ++ decimalStr i

/-- The region-name coercion shared by both aggregators:
`raw == null ? '' : String(raw).trim()` in `aggregateByLgaWithMapping`,
and the equivalent `String(r[lgaCol] ?? '').trim()` in `aggregateByLga`
(both give `''` for null/undefined and `String(raw).trim()` otherwise). -/
def coerceName (v : Value) : String :=
  match v with
  | .vnull => ""
  | .vundefined => ""
  | v => jsTrim (jsToString v)

/-- The loop body shared verbatim by both aggregators: skip the row if the
region name is blank, else fold each value column (by position) into the
bucket for the row's normalized key. -/
def processRow (lgaCol : String) (valueCols : List String)
    (m : List (String × Bucket)) (r : Row) : List (String × Bucket) :=
  let name := coerceName (rowGet r lgaCol)
  if name = "" then m
  else
    let key := normalizeName (.vstr name)
    let cur := (alget m key).getD ⟨name, []⟩
    let newMetrics := (valueCols.enum).foldl (fun ms ic =>
      match jsToNumber (rowGet r ic.2) with
      | some v => alset ms (metricKey (ic.1 + 1)) (((alget ms (metricKey (ic.1 + 1))).getD 0) + v)
      | none => ms) cur.metrics
    alset m key ⟨cur.name, newMetrics⟩

/-- One file of `aggregateByLgaWithMapping`'s outer loop:
`if (!f.lgaCol || f.valueCols.length === 0) continue` (JS falsiness of the
column name covers both `null` and the empty string). -/
def stepFile (m : List (String × Bucket)) (f : FileMapping) : List (String × Bucket) :=
  match f.lgaCol with
  | none => m
  | some c =>
    if c = "" || f.valueCols.isEmpty then m
    else f.rows.foldl (processRow c f.valueCols) m

/-- Source `aggregateByLgaWithMapping`. -/
def aggregateByLgaWithMapping (files : List FileMapping) : List AggregatedRegion :=
  (files.foldl stepFile []).map (fun p => ⟨p.1, p.2.name, p.2.metrics⟩)

/-- Source `aggregateByLga`: per table, detect the region column and value
columns, then run the same row loop. -/
def aggregateByLga (filesRows : List (List Row)) : List AggregatedRegion :=
  (filesRows.foldl (fun m rows =>
    match detectLgaColumn rows with
    | none => m
    | some c =>
      if c = "" then m
      else
        let vcs := detectValueColumns rows
        if vcs.isEmpty then m else rows.foldl (processRow c vcs) m) []).map
    (fun p => ⟨p.1, p.2.name, p.2.metrics⟩)

/-- A geographic feature: just its properties object (`null` when absent);
geometry plays no role in the merge. -/
structure Feature where
  properties : Option (List (String × Value))
deriving DecidableEq, Repr

/-- The merge result: mutated features plus the collection-level summary
`_attached_count` / `_total_features`. -/
structure MergedCollection where
  features : List Feature
  attached_count : Nat
  total_features : Nat
deriving DecidableEq, Repr

/-- The source's fixed candidate list of feature-name property keys. -/
def nameFields : List String :=
  ["LGA_NAME", "LGA_NAME_2021", "LGA_NAME_2016", "lga_name", "NAME", "name", "lga"]

/-- The lookup map `new Map(agg.map(a => [a.key, a]))`: successive inserts,
a later duplicate key overwriting the earlier value. -/
def buildLookup (agg : List AggregatedRegion) : List (String × AggregatedRegion) :=
  agg.foldl (fun m a => alset m a.key a) []

/-- The feature-name resolution of `mergeMetricsIntoGeoJSON`: first truthy
candidate field (loop with break), then the `props['name']` fallback, which
the code reaches both when no candidate is truthy and when the chosen
candidate normalized to the empty string; `""` plays the role of the JS
null/empty key that makes the feature unmatched. -/
def resolveKey (props : List (String × Value)) : String :=
  let k1 := match nameFields.find? (fun nf => truthy (rowGet props nf)) with
    | some nf => normalizeName (rowGet props nf)
    | none => ""
  if k1 = "" && truthy (rowGet props "name") then normalizeName (rowGet props "name") else k1

/-- `Object.assign(props, metrics)`: copy each metric binding in order,
overwriting same-named keys in place. -/
def objAssign (props : List (String × Value)) (metrics : List (String × Int)) :
    List (String × Value) :=
  metrics.foldl (fun ps kv => alset ps kv.1 (.vnum kv.2)) props

/-- The per-feature body of the merge loop; the Bool is whether `attached`
was incremented for this feature. -/
def mergeFeature (lk : List (String × AggregatedRegion)) (f : Feature) : Feature × Bool :=
  let props := f.properties.getD []
  let key := resolveKey props
  if key = "" then (⟨some props⟩, false)
  else
    match alget lk key with
    | some hit => (⟨some (objAssign props hit.metrics)⟩, true)
    | none => (⟨some props⟩, false)

/-- Source `mergeMetricsIntoGeoJSON`. -/
def mergeMetricsIntoGeoJSON (geo : List Feature) (agg : List AggregatedRegion) :
    MergedCollection :=
  let lk := buildLookup agg
  let merged := geo.map (fun f => mergeFeature lk f)
  ⟨merged.map (fun p => p.1), (merged.countP (fun p => p.2)), geo.length⟩

/-! ### Spec-side constructions

The following definitions restate, in the spec's words, which rows contribute
to the aggregation and what each contributes; the theorems below prove the
source functions equal to the corresponding constructions. -/

/-- A contributing row in the spec-side description: its normalized key, its
raw trimmed display name, and its tagged positional metric contributions. -/
abbrev Contrib := String × String × List (String × Int)

/-- Spec-side: the positional metric contributions of one row — for each value
column, by its positional index within the file's value-column list, the cell
when it coerces to a finite number, tagged `metric_(index+1)`; a cell that
does not coerce is simply absent. -/
def rowContrib (valueCols : List String) (r : Row) : List (String × Int) :=
  (valueCols.enum).filterMap (fun ic =>
    (jsToNumber (rowGet r ic.2)).map (fun v => (metricKey (ic.1 + 1), v)))

/-- Spec-side: the contribution of one row, `none` when the region cell is
blank after string coercion and trimming. -/
def rowContribOf (c : String) (valueCols : List String) (r : Row) : Option Contrib :=
  let name := coerceName (rowGet r c)
  if name = "" then none
  else some (normalizeName (.vstr name), name, rowContrib valueCols r)

/-- Spec-side: the contributing rows of one file mapping, in row order.  A
mapping with an unset (or blank-named) region column or no value columns
contributes nothing. -/
def fileContribs (f : FileMapping) : List Contrib :=
  match f.lgaCol with
  | none => []
  | some c =>
    if c = "" || f.valueCols.isEmpty then []
    else f.rows.filterMap (rowContribOf c f.valueCols)

/-- Spec-side: all contributing rows of a mapping list, files in order. -/
def contribStream (files : List FileMapping) : List Contrib :=
  files.flatMap fileContribs

/-- Insert a key at the end unless already present. -/
def insKey (acc : List String) (k : String) : List String :=
  if acc.contains k then acc else acc ++ [k]

/-- First occurrence of each string, in first-seen order. -/
def firstKeys (l : List String) : List String :=
  l.foldl insKey []

/-- Fold one tagged cell contribution into a metric record:
`rec[k] = (rec[k] ?? 0) + v`. -/
def addCell (ms : List (String × Int)) (c : String × Int) : List (String × Int) :=
  alset ms c.1 (((alget ms c.1).getD 0) + c.2)

/-- Fold one contributing row into the aggregation map: create the bucket
with the row's name on first sight of the key, then fold the row's cell
contributions into the bucket's metric record. -/
def applyContrib (m : List (String × Bucket)) (c : Contrib) : List (String × Bucket) :=
  let cur := (alget m c.1).getD ⟨c.2.1, []⟩
  alset m c.1 ⟨cur.name, c.2.2.foldl addCell cur.metrics⟩

/-- The bucket obtained by folding a run of same-key contributions onto an
optional starting bucket (the first contribution creates the bucket and fixes
its display name). -/
def bucketAfter (start : Option Bucket) (cs : List Contrib) : Option Bucket :=
  cs.foldl (fun b c =>
    match b with
    | some bk => some ⟨bk.name, c.2.2.foldl addCell bk.metrics⟩
    | none => some ⟨c.2.1, c.2.2.foldl addCell []⟩) start

/-- The cell contributions of a contribution stream restricted to region
key `k`, in order. -/
def cellsFor (st : List Contrib) (k : String) : List (String × Int) :=
  (st.filter (fun c => c.1 == k)).flatMap (fun c => c.2.2)

/-- Sum of the cell contributions carrying metric key `mk`. -/
def sumFor (cs : List (String × Int)) (mk : String) : Int :=
  ((cs.filter (fun c => c.1 == mk)).map (fun c => c.2)).sum

/-- Spec-side `normalize`, following the spec's words: coerce to string
(empty string if null/undefined), uppercase, filter to `[A-Z0-9 ]`, trim. -/
def normalizeNameSpec (s : Value) : String :=
  let t : String := match s with
    | .vnull => ""
    | .vundefined => ""
    | v => jsToString v
  String.mk (trimSpaces ((t.data.map Char.toUpper).filter isKeepChar))

/-- Spec-side value-column detection, following the claim's words: the
numeric columns are those where at least one row holds a numeric value; return
the numeric columns whose headers match the vocabulary when any exist,
otherwise the singleton of the first numeric column, otherwise the empty
list (in particular for an empty table). -/
def detectValueColumnsSpec (rows : List Row) : List String :=
  match rows with
  | [] => []
  | r0 :: _ =>
    let numeric := (alkeys r0).filter (fun c => rows.any (fun r => (rowGet r c).isNumberType))
    match numeric with
    | [] => []
    | c0 :: _ =>
      if numeric.any hasValueVocab then numeric.filter hasValueVocab else [c0]

/-- The feature-name resolution as the claim C2 words it: the first candidate
key holding a present truthy value determines the name; only when no candidate
does is the generic `name` property consulted. -/
def claimResolve (props : List (String × Value)) : String :=
  match nameFields.find? (fun nf => truthy (rowGet props nf)) with
  | some nf => normalizeName (rowGet props nf)
  | none => if truthy (rowGet props "name") then normalizeName (rowGet props "name") else ""

/-- Whether the merge loop attaches a bucket to a feature: its resolved key is
nonempty and bound in the lookup map. -/
def matchedB (lk : List (String × AggregatedRegion)) (f : Feature) : Bool :=
  let key := resolveKey (f.properties.getD [])
  key != "" && (alget lk key).isSome

/-- Spec-side, for claim C7: the first-value-column contributions of one file
to region key `k` — over the file's contributing rows for `k`, the first value
column's cell whenever it coerces to a finite number. -/
def firstColCells (f : FileMapping) (k : String) : List Int :=
  match f.lgaCol with
  | none => []
  | some c =>
    if c = "" || f.valueCols.isEmpty then []
    else (f.rows.filter (fun r =>
        coerceName (rowGet r c) ≠ "" &&
          normalizeName (.vstr (coerceName (rowGet r c))) == k)).filterMap
      (fun r => f.valueCols.head?.bind (fun c0 => jsToNumber (rowGet r c0)))

/-- The implicit per-table mapping that `aggregateByLga` computes before
running the shared row loop. -/
def detectedMapping (rows : List Row) : FileMapping :=
  ⟨"", rows, detectLgaColumn rows, detectValueColumns rows⟩

/-! ### Concrete inputs used by the witnesses and counterexamples -/

/-- Two small files: shared region across case variants, a blank region row, a
non-numeric cell, and a second file whose first value column has a different
name. -/
def demoFiles : List FileMapping :=
  [⟨"a.csv",
    [[("LGA", .vstr "Melbourne"), ("Spend", .vnum 10)],
     [("LGA", .vstr "MELBOURNE"), ("Spend", .vnum 5)],
     [("LGA", .vstr ""), ("Spend", .vnum 7)],
     [("LGA", .vstr "Yarra"), ("Spend", .vstr "N/A")]],
    some "LGA", ["Spend"]⟩,
   ⟨"b.csv",
    [[("Region", .vstr "Yarra"), ("Loss", .vnum 3)]],
    some "Region", ["Loss"]⟩]

/-- A file whose only value cell for region X is non-numeric: it creates a
bucket whose metric record is empty. -/
def emptyMetricsFile : FileMapping :=
  ⟨"f.csv", [[("LGA", .vstr "X"), ("v", .vstr "N/A")]], some "LGA", ["v"]⟩

/-- One feature named X, used against the empty-metrics bucket. -/
def geoX : List Feature := [⟨some [("LGA_NAME", .vstr "X")]⟩]

/-- A feature whose first candidate name field is truthy but normalizes to the
empty string, while its generic `name` property matches a bucket. -/
def punctFeature : Feature :=
  ⟨some [("LGA_NAME", .vstr "!!!"), ("name", .vstr "Yarra")]⟩

/-- One aggregated bucket for YARRA carrying one metric. -/
def yarraAgg : List AggregatedRegion :=
  aggregateByLgaWithMapping
    [⟨"b.csv", [[("Region", .vstr "Yarra"), ("Loss", .vnum 3)]], some "Region", ["Loss"]⟩]

/-- The first bucket produced by `demoFiles` (Melbourne across case variants). -/
def demoEntry : AggregatedRegion := ⟨"MELBOURNE", "Melbourne", [("metric_1", 15)]⟩

/-- The single bucket of `yarraAgg`. -/
def yarraEntry : AggregatedRegion := ⟨"YARRA", "Yarra", [("metric_1", 3)]⟩

/-- A feature matching `yarraAgg`, with an unrelated property to check the
frame condition. -/
def yarraFeature : Feature := ⟨some [("LGA_NAME", .vstr "Yarra"), ("pop", .vnum 7)]⟩

/-- Two one-row files whose first value columns have different names but feed
the same normalized region key. -/
def c7FileA : FileMapping :=
  ⟨"a.csv", [[("LGA", .vstr "Yarra"), ("Spend", .vnum 10)]], some "LGA", ["Spend"]⟩

/-- Companion file for the positional-collision witness. -/
def c7FileB : FileMapping :=
  ⟨"b.csv", [[("Region", .vstr "YARRA"), ("Loss", .vnum 5)]], some "Region", ["Loss"]⟩

/-- The bucket produced from `c7FileA` and `c7FileB` together. -/
def c7Entry : AggregatedRegion := ⟨"YARRA", "Yarra", [("metric_1", 15)]⟩

/-! ### Association-list lemmas -/

theorem alget_nil {α : Type} (k : String) : alget ([] : List (String × α)) k = none := rfl

theorem alget_cons {α : Type} (p : String × α) (t : List (String × α)) (k : String) :
    alget (p :: t) k = if p.1 == k then some p.2 else alget t k := by
  cases h : p.1 == k <;> simp [alget, List.find?_cons, h]

theorem alget_alset_self {α : Type} (m : List (String × α)) (k : String) (v : α) :
    alget (alset m k v) k = some v := by
  induction m with
  | nil => simp [alset, alget_cons]
  | cons p t ih =>
    cases h : p.1 == k with
    | true => simp [alset, h, alget_cons]
    | false => simp [alset, h, alget_cons, ih]

theorem alget_alset_ne {α : Type} (m : List (String × α)) (k k' : String) (v : α)
    (hne : k' ≠ k) : alget (alset m k v) k' = alget m k' := by
  have hkk : (k == k') = false := beq_eq_false_iff_ne.mpr (Ne.symm hne)
  induction m with
  | nil => simp [alset, alget_cons, alget_nil, hkk]
  | cons p t ih =>
    cases h : p.1 == k with
    | true =>
      have hp : p.1 = k := beq_iff_eq.mp h
      have hp' : (p.1 == k') = false := by rw [hp]; exact hkk
      simp [alset, h, alget_cons, hkk, hp']
    | false => simp [alset, h, alget_cons, ih]

theorem alkeys_alset {α : Type} (m : List (String × α)) (k : String) (v : α) :
    alkeys (alset m k v) = insKey (alkeys m) k := by
  induction m with
  | nil => simp [alset, alkeys, insKey]
  | cons p t ih =>
    cases h : p.1 == k with
    | true =>
      have hp : p.1 = k := beq_iff_eq.mp h
      simp [alset, h, alkeys, insKey, List.contains_cons, hp]
    | false =>
      have hsym : (k == p.1) = false :=
        beq_eq_false_iff_ne.mpr (Ne.symm (beq_eq_false_iff_ne.mp h))
      have hstep : alkeys (alset (p :: t) k v) = p.1 :: alkeys (alset t k v) := by
        simp [alset, h, alkeys]
      have hne : k ≠ p.1 := beq_eq_false_iff_ne.mp hsym
      rw [hstep, ih]
      simp [insKey, alkeys, List.contains_cons, hne]
      cases hc : decide (k ∈ List.map (fun p => p.1) t) <;> simp_all

theorem alget_eq_none_iff {α : Type} (m : List (String × α)) (k : String) :
    alget m k = none ↔ k ∉ alkeys m := by
  induction m with
  | nil => simp [alget_nil, alkeys]
  | cons p t ih =>
    cases h : p.1 == k with
    | true =>
      have hp := beq_iff_eq.mp h
      simp [alget_cons, h, alkeys, hp]
    | false =>
      have hne := beq_eq_false_iff_ne.mp h
      simp [alget_cons, h, alkeys, ih, Ne.symm hne]

theorem alget_of_mem_nodup {α : Type} (m : List (String × α)) (p : String × α)
    (hnd : (alkeys m).Nodup) (hp : p ∈ m) : alget m p.1 = some p.2 := by
  induction m with
  | nil => simp at hp
  | cons q t ih =>
    have hnd' : q.1 ∉ alkeys t ∧ (alkeys t).Nodup := by
      have : alkeys (q :: t) = q.1 :: alkeys t := rfl
      rw [this] at hnd
      exact List.nodup_cons.mp hnd
    rcases List.mem_cons.mp hp with hq | hq
    · subst hq
      simp [alget_cons]
    · have hq1 : p.1 ∈ alkeys t := by
        simp only [alkeys, List.mem_map]
        exact ⟨p, hq, rfl⟩
      have hne : q.1 ≠ p.1 := fun he => hnd'.1 (he ▸ hq1)
      have hb : (q.1 == p.1) = false := beq_eq_false_iff_ne.mpr hne
      simp [alget_cons, hb, ih hnd'.2 hq]

/-! ### Generic fold lemmas -/

theorem list_foldl_ext {α σ : Type} (f g : σ → α → σ) (l : List α) (init : σ)
    (h : ∀ s a, f s a = g s a) : l.foldl f init = l.foldl g init := by
  induction l generalizing init with
  | nil => rfl
  | cons a t ih => simp only [List.foldl_cons, h, ih]

theorem list_foldl_filterMap {α β σ : Type} (g : α → Option β) (step : σ → β → σ)
    (l : List α) (init : σ) :
    (l.filterMap g).foldl step init =
      l.foldl (fun s a => match g a with | some b => step s b | none => s) init := by
  induction l generalizing init with
  | nil => rfl
  | cons a t ih => cases hg : g a <;> simp [List.filterMap_cons, hg, ih]

theorem list_foldl_flatMap {α β σ : Type} (g : α → List β) (step : σ → β → σ)
    (l : List α) (init : σ) :
    (l.flatMap g).foldl step init = l.foldl (fun s a => (g a).foldl step s) init := by
  induction l generalizing init with
  | nil => rfl
  | cons a t ih => simp [List.flatMap_cons, List.foldl_append, ih]

theorem list_find?_eq_head?_filter {α : Type} (p : α → Bool) (l : List α) :
    l.find? p = (l.filter p).head? := by
  induction l with
  | nil => rfl
  | cons a t ih =>
    cases h : p a
    · rw [List.find?_cons_of_neg _ (by simp [h]), List.filter_cons, ih]
      simp [h]
    · rw [List.find?_cons_of_pos _ h, List.filter_cons]
      simp [h]

/-! ### Bridge: the source loops compute a fold of the contribution stream -/

theorem rowContrib_foldl (vcs : List String) (r : Row) (init : List (String × Int)) :
    (rowContrib vcs r).foldl addCell init =
      (vcs.enum).foldl (fun ms ic =>
        match jsToNumber (rowGet r ic.2) with
        | some v => alset ms (metricKey (ic.1 + 1)) (((alget ms (metricKey (ic.1 + 1))).getD 0) + v)
        | none => ms) init := by
  unfold rowContrib
  rw [list_foldl_filterMap]
  apply list_foldl_ext
  intro s ic
  cases h : jsToNumber (rowGet r ic.2) <;> simp [h, addCell]

theorem processRow_eq (c : String) (vcs : List String) (m : List (String × Bucket)) (r : Row) :
    processRow c vcs m r =
      match rowContribOf c vcs r with
      | none => m
      | some cb => applyContrib m cb := by
  by_cases hname : coerceName (rowGet r c) = ""
  · simp [processRow, rowContribOf, hname]
  · simp [processRow, rowContribOf, hname, applyContrib, rowContrib_foldl]

theorem stepFile_eq (m : List (String × Bucket)) (f : FileMapping) :
    stepFile m f = (fileContribs f).foldl applyContrib m := by
  unfold stepFile fileContribs
  cases hl : f.lgaCol with
  | none => rfl
  | some c =>
    by_cases hc : (c = "" || f.valueCols.isEmpty) = true
    · simp [hc]
    · simp only [hc, if_false, Bool.false_eq_true]
      rw [list_foldl_filterMap]
      apply list_foldl_ext
      intro s r
      rw [processRow_eq]
      cases h : rowContribOf c f.valueCols r <;> rfl

theorem foldl_stepFile_eq (files : List FileMapping) (m : List (String × Bucket)) :
    files.foldl stepFile m = (contribStream files).foldl applyContrib m := by
  unfold contribStream
  rw [list_foldl_flatMap]
  apply list_foldl_ext
  intro s f
  exact stepFile_eq s f

/-! ### Characterization of the stream fold -/

theorem alkeys_foldl_applyContrib (S : List Contrib) (m : List (String × Bucket)) :
    alkeys (S.foldl applyContrib m) = (S.map (fun c => c.1)).foldl insKey (alkeys m) := by
  induction S generalizing m with
  | nil => rfl
  | cons c S ih =>
    simp only [List.foldl_cons, List.map_cons, ih]
    congr 1
    unfold applyContrib
    exact alkeys_alset ..

theorem alget_foldl_applyContrib (S : List Contrib) (m : List (String × Bucket)) (k : String) :
    alget (S.foldl applyContrib m) k =
      bucketAfter (alget m k) (S.filter (fun c => c.1 == k)) := by
  induction S generalizing m with
  | nil => rfl
  | cons c S ih =>
    rw [List.foldl_cons, ih, List.filter_cons]
    cases hck : c.1 == k with
    | false =>
      have hne : k ≠ c.1 := Ne.symm (beq_eq_false_iff_ne.mp hck)
      have hg : alget (applyContrib m c) k = alget m k := by
        unfold applyContrib
        exact alget_alset_ne _ _ _ _ hne
      simp only [hck, Bool.false_eq_true, if_false, hg]
    | true =>
      have hk : c.1 = k := beq_iff_eq.mp hck
      simp only [hck, if_true]
      have hstep : ∀ (start : Option Bucket) (cs : List Contrib),
          bucketAfter start (c :: cs) =
            bucketAfter (match start with
              | some bk => some ⟨bk.name, c.2.2.foldl addCell bk.metrics⟩
              | none => some ⟨c.2.1, c.2.2.foldl addCell []⟩) cs := fun start cs => rfl
      rw [hstep]
      congr 1
      unfold applyContrib
      rw [← hk, alget_alset_self]
      cases hm : alget m c.1 <;> simp [hm]

theorem bucketAfter_some (cs : List Contrib) (b : Bucket) :
    bucketAfter (some b) cs =
      some ⟨b.name, (cs.flatMap (fun c => c.2.2)).foldl addCell b.metrics⟩ := by
  induction cs generalizing b with
  | nil => simp [bucketAfter]
  | cons c cs ih =>
    rw [show bucketAfter (some b) (c :: cs) =
        bucketAfter (some ⟨b.name, c.2.2.foldl addCell b.metrics⟩) cs from rfl, ih]
    simp [List.flatMap_cons, List.foldl_append]

theorem bucketAfter_none_cons (c : Contrib) (cs : List Contrib) :
    bucketAfter none (c :: cs) =
      some ⟨c.2.1, ((c :: cs).flatMap (fun x => x.2.2)).foldl addCell []⟩ := by
  rw [show bucketAfter none (c :: cs) =
      bucketAfter (some ⟨c.2.1, c.2.2.foldl addCell []⟩) cs from rfl, bucketAfter_some]
  simp [List.flatMap_cons, List.foldl_append]

theorem alget_foldl_addCell (cs : List (String × Int)) (ms : List (String × Int)) (mk : String) :
    alget (cs.foldl addCell ms) mk =
      match alget ms mk with
      | some v => some (v + sumFor cs mk)
      | none => if cs.any (fun c => c.1 == mk) then some (sumFor cs mk) else none := by
  induction cs generalizing ms with
  | nil => cases h : alget ms mk <;> simp [h, sumFor]
  | cons c cs ih =>
    rw [List.foldl_cons, ih]
    cases hck : c.1 == mk with
    | false =>
      have hne : mk ≠ c.1 := Ne.symm (beq_eq_false_iff_ne.mp hck)
      have hg : alget (addCell ms c) mk = alget ms mk := by
        unfold addCell
        exact alget_alset_ne _ _ _ _ hne
      have hsum : sumFor (c :: cs) mk = sumFor cs mk := by
        simp [sumFor, List.filter_cons, hck]
      have hany : ((c :: cs).any (fun x => x.1 == mk)) = (cs.any (fun x => x.1 == mk)) := by
        simp [List.any_cons, hck]
      rw [hg, hsum, hany]
    | true =>
      have hk : c.1 = mk := beq_iff_eq.mp hck
      have hg : alget (addCell ms c) mk = some (((alget ms mk).getD 0) + c.2) := by
        unfold addCell
        rw [← hk, alget_alset_self, hk]
      have hsum : sumFor (c :: cs) mk = c.2 + sumFor cs mk := by
        simp [sumFor, List.filter_cons, hck]
      rw [hg, hsum]
      cases h : alget ms mk <;> simp [h, List.any_cons, hck, add_assoc]

theorem foldl_insKey_nodup (l : List String) (acc : List String) (h : acc.Nodup) :
    (l.foldl insKey acc).Nodup := by
  induction l generalizing acc with
  | nil => exact h
  | cons a t ih =>
    rw [List.foldl_cons]
    apply ih
    unfold insKey
    cases hc : acc.contains a with
    | true => simpa using h
    | false =>
      have ha : a ∉ acc := by simpa using hc
      simp [List.nodup_append, h, ha]

theorem firstKeys_nodup (l : List String) : (firstKeys l).Nodup :=
  foldl_insKey_nodup l [] (by simp)

theorem aggregate_keys_char (files : List FileMapping) :
    (aggregateByLgaWithMapping files).map (fun e => e.key) =
      firstKeys ((contribStream files).map (fun c => c.1)) := by
  unfold aggregateByLgaWithMapping firstKeys
  rw [foldl_stepFile_eq, List.map_map]
  exact alkeys_foldl_applyContrib (contribStream files) []

theorem aggregate_mem_char (files : List FileMapping) (e : AggregatedRegion)
    (he : e ∈ aggregateByLgaWithMapping files) :
    ((contribStream files).find? (fun c => c.1 == e.key)).map (fun c => c.2.1) = some e.name ∧
    e.metrics = (cellsFor (contribStream files) e.key).foldl addCell [] := by
  unfold aggregateByLgaWithMapping at he
  rw [foldl_stepFile_eq] at he
  obtain ⟨p, hpM, hpe⟩ := List.mem_map.mp he
  have hnd : (alkeys ((contribStream files).foldl applyContrib [])).Nodup := by
    rw [alkeys_foldl_applyContrib]
    exact foldl_insKey_nodup _ _ (by simp [alkeys])
  have hget := alget_of_mem_nodup _ p hnd hpM
  have hchar := alget_foldl_applyContrib (contribStream files) [] p.1
  rw [alget_nil, hget] at hchar
  cases hfil : (contribStream files).filter (fun c => c.1 == p.1) with
  | nil =>
    rw [hfil] at hchar
    exact absurd hchar (by simp [bucketAfter])
  | cons c0 rest =>
    rw [hfil, bucketAfter_none_cons] at hchar
    have h2 := Option.some.inj hchar
    have hkey : e.key = p.1 := by rw [← hpe]
    have hname : e.name = p.2.name := by rw [← hpe]
    have hmet : e.metrics = p.2.metrics := by rw [← hpe]
    constructor
    · rw [list_find?_eq_head?_filter, hkey, hfil, hname, h2]
      rfl
    · rw [hmet, h2]
      unfold cellsFor
      rw [hkey, hfil]

theorem contribStream_key_normalized (files : List FileMapping) :
    ∀ c ∈ contribStream files, c.1 = normalizeName (.vstr c.2.1) := by
  intro c hc
  obtain ⟨f, _, hcf⟩ := List.mem_flatMap.mp hc
  unfold fileContribs at hcf
  rcases hl : f.lgaCol with _ | col
  · rw [hl] at hcf
    simp at hcf
  · rw [hl] at hcf
    dsimp only at hcf
    split at hcf
    · simp at hcf
    · obtain ⟨r, _, hr⟩ := List.mem_filterMap.mp hcf
      unfold rowContribOf at hr
      dsimp only at hr
      split at hr
      · exact absurd hr (by simp)
      · rw [← Option.some.inj hr]

theorem aggregateByLga_eq (filesRows : List (List Row)) :
    aggregateByLga filesRows = aggregateByLgaWithMapping (filesRows.map detectedMapping) := by
  unfold aggregateByLga aggregateByLgaWithMapping
  rw [List.foldl_map]
  congr 1
  apply list_foldl_ext
  intro m rows
  unfold stepFile detectedMapping
  cases hd : detectLgaColumn rows with
  | none => rfl
  | some c =>
    by_cases hc : c = ""
    · simp [hc]
    · by_cases hv : (detectValueColumns rows).isEmpty
      · simp [hc, hv]
      · simp [hc, hv]

/-! ### Normalization lemmas -/

theorem toUpper_of_keep (c : Char) (h : isKeepChar c = true) : c.toUpper = c := by
  have hb : ¬(c.toNat ≥ 97 ∧ c.toNat ≤ 122) := by
    simp [isKeepChar] at h
    omega
  unfold Char.toUpper
  simp [hb]

theorem dropWhile_idem {α : Type} (p : α → Bool) (l : List α) :
    (l.dropWhile p).dropWhile p = l.dropWhile p := by
  induction l with
  | nil => rfl
  | cons a t ih => cases h : p a <;> simp [List.dropWhile_cons, h, ih]

theorem mem_trimSpaces (l : List Char) (c : Char) (hc : c ∈ trimSpaces l) : c ∈ l := by
  unfold trimSpaces at hc
  rw [List.mem_reverse] at hc
  have h1 := (List.dropWhile_sublist (l := (l.dropWhile (· == ' ')).reverse)
    (p := (· == ' '))).mem hc
  rw [List.mem_reverse] at h1
  exact (List.dropWhile_sublist (l := l) (p := (· == ' '))).mem h1

theorem list_map_id_of {α : Type} (f : α → α) (l : List α) (h : ∀ c ∈ l, f c = c) :
    l.map f = l := by
  induction l with
  | nil => rfl
  | cons a t ih =>
    simp only [List.map_cons, h a (by simp)]
    rw [ih (fun c hc => h c (by simp [hc]))]

theorem rtrim_head (z : List Char) (hz : z.dropWhile (fun c => c == ' ') = z) :
    ((z.reverse.dropWhile (fun c => c == ' ')).reverse).dropWhile (fun c => c == ' ') =
      (z.reverse.dropWhile (fun c => c == ' ')).reverse := by
  cases z with
  | nil => rfl
  | cons a z' =>
    have hpa : (a == ' ') = false := by
      cases hpa : (a == ' ') with
      | false => rfl
      | true =>
        rw [List.dropWhile_cons, if_pos hpa] at hz
        have hlen := congrArg List.length hz
        have hle := (List.dropWhile_sublist (l := z') (fun c => c == ' ')).length_le
        simp at hlen
        omega
    have hne : ¬ a = ' ' := by simpa using hpa
    rw [List.reverse_cons, List.dropWhile_append]
    cases hemp : (z'.reverse.dropWhile (fun c => c == ' ')).isEmpty <;>
      simp [hemp, hne, List.reverse_append]

theorem trimSpaces_idem (l : List Char) : trimSpaces (trimSpaces l) = trimSpaces l := by
  unfold trimSpaces
  have h1 := rtrim_head (l.dropWhile (fun c => c == ' ')) (dropWhile_idem _ _)
  rw [h1, List.reverse_reverse, dropWhile_idem]

theorem normalizeName_vstr (s : String) :
    normalizeName (.vstr s) =
      String.mk (trimSpaces ((s.data.map Char.toUpper).filter isKeepChar)) := rfl

theorem normalize_fixes_kept (X : List Char) :
    normalizeName (.vstr (String.mk (trimSpaces (X.filter isKeepChar)))) =
      String.mk (trimSpaces (X.filter isKeepChar)) := by
  rw [normalizeName_vstr]
  have hkeep : ∀ c ∈ trimSpaces (X.filter isKeepChar), isKeepChar c = true := by
    intro c hc
    exact (List.mem_filter.mp (mem_trimSpaces _ _ hc)).2
  have hdata : (String.mk (trimSpaces (X.filter isKeepChar))).data =
      trimSpaces (X.filter isKeepChar) := rfl
  rw [hdata]
  have hmap : (trimSpaces (X.filter isKeepChar)).map Char.toUpper =
      trimSpaces (X.filter isKeepChar) := by
    exact list_map_id_of _ _ (fun c hc => toUpper_of_keep c (hkeep c hc))
  have hfil : (trimSpaces (X.filter isKeepChar)).filter isKeepChar =
      trimSpaces (X.filter isKeepChar) :=
    List.filter_eq_self.mpr hkeep
  rw [hmap, hfil, trimSpaces_idem]

/-! ### Decimal rendering is injective (metric slots are distinct) -/

theorem char_toNat_ofNat (n : Nat) (h : n < 55296) : (Char.ofNat n).toNat = n := by
  unfold Char.ofNat
  rw [dif_pos (Or.inl h)]
  unfold Char.ofNatAux Char.toNat
  simp [UInt32.toNat, BitVec.toNat_ofNatLt]

theorem decimalDigitsAux_eq : ∀ n : Nat, ∀ f : Nat, n < f →
    decimalDigitsAux f n =
      if n < 10 then [Char.ofNat (48 + n)]
      else decimalDigits (n / 10) ++ [Char.ofNat (48 + n % 10)] := by
  intro n
  induction n using Nat.strong_induction_on with
  | _ n ih =>
    intro f hf
    cases f with
    | zero => omega
    | succ f1 =>
      by_cases h10 : n < 10
      · simp [decimalDigitsAux, h10]
      · have hdiv : n / 10 < n := Nat.div_lt_self (by omega) (by omega)
        have h1 : decimalDigitsAux f1 (n / 10) =
            if n / 10 < 10 then [Char.ofNat (48 + n / 10)]
            else decimalDigits (n / 10 / 10) ++ [Char.ofNat (48 + n / 10 % 10)] :=
          ih (n / 10) hdiv f1 (by omega)
        have h2 : decimalDigits (n / 10) =
            if n / 10 < 10 then [Char.ofNat (48 + n / 10)]
            else decimalDigits (n / 10 / 10) ++ [Char.ofNat (48 + n / 10 % 10)] :=
          ih (n / 10) hdiv (n / 10 + 1) (by omega)
        simp only [decimalDigitsAux, h10, if_false, h1, ← h2]

theorem decimalDigits_lt (n : Nat) (h : n < 10) :
    decimalDigits n = [Char.ofNat (48 + n)] := by
  rw [show decimalDigits n = decimalDigitsAux (n + 1) n from rfl,
    decimalDigitsAux_eq n (n + 1) (by omega)]
  simp [h]

theorem decimalDigits_ge (n : Nat) (h : ¬ n < 10) :
    decimalDigits n = decimalDigits (n / 10) ++ [Char.ofNat (48 + n % 10)] := by
  rw [show decimalDigits n = decimalDigitsAux (n + 1) n from rfl,
    decimalDigitsAux_eq n (n + 1) (by omega)]
  simp [h]

theorem decimalDigits_ne_nil (n : Nat) : decimalDigits n ≠ [] := by
  by_cases h : n < 10
  · rw [decimalDigits_lt n h]
    simp
  · rw [decimalDigits_ge n h]
    simp

theorem decimalDigits_inj : ∀ m n : Nat, decimalDigits m = decimalDigits n → m = n := by
  intro m
  induction m using Nat.strong_induction_on with
  | _ m ih =>
    intro n h
    by_cases hm : m < 10 <;> by_cases hn : n < 10
    · rw [decimalDigits_lt m hm, decimalDigits_lt n hn] at h
      have hh : Char.ofNat (48 + m) = Char.ofNat (48 + n) := by simpa using h
      have := congrArg Char.toNat hh
      rw [char_toNat_ofNat _ (by omega), char_toNat_ofNat _ (by omega)] at this
      omega
    · rw [decimalDigits_lt m hm, decimalDigits_ge n hn] at h
      cases hdd : decimalDigits (n / 10) with
      | nil => exact absurd hdd (decimalDigits_ne_nil (n / 10))
      | cons a t =>
        rw [hdd] at h
        simp at h
    · rw [decimalDigits_ge m hm, decimalDigits_lt n hn] at h
      cases hdd : decimalDigits (m / 10) with
      | nil => exact absurd hdd (decimalDigits_ne_nil (m / 10))
      | cons a t =>
        rw [hdd] at h
        simp at h
    · rw [decimalDigits_ge m hm, decimalDigits_ge n hn] at h
      have hlen := congrArg List.length h
      simp [List.length_append] at hlen
      obtain ⟨hpre, hsuf⟩ := List.append_inj h (by omega)
      have hdiv : m / 10 = n / 10 :=
        ih (m / 10) (Nat.div_lt_self (by omega) (by omega)) (n / 10) hpre
      have hh : Char.ofNat (48 + m % 10) = Char.ofNat (48 + n % 10) := by simpa using hsuf
      have := congrArg Char.toNat hh
      rw [char_toNat_ofNat _ (by omega), char_toNat_ofNat _ (by omega)] at this
      omega

theorem metricKey_inj (i j : Nat) (h : metricKey i = metricKey j) : i = j := by
  unfold metricKey decimalStr at h
  have hd := congrArg String.data h
  rw [String.data_append, String.data_append] at hd
  exact decimalDigits_inj i j (List.append_cancel_left hd)

/-! ### Merge helper lemmas -/

theorem alget_alset_cases {α : Type} (m : List (String × α)) (k k' : String) (v a : α)
    (h : alget (alset m k' v) k = some a) : a = v ∨ alget m k = some a := by
  by_cases he : k = k'
  · subst he
    rw [alget_alset_self] at h
    exact Or.inl (Option.some.inj h).symm
  · right
    rw [alget_alset_ne m k' k v he] at h
    exact h

theorem foldl_alset_mem (agg : List AggregatedRegion) :
    ∀ (m : List (String × AggregatedRegion)) (k : String) (a : AggregatedRegion),
      alget (agg.foldl (fun m x => alset m x.key x) m) k = some a →
      a ∈ agg ∨ alget m k = some a := by
  induction agg with
  | nil => exact fun m k a h => Or.inr h
  | cons x t ih =>
    intro m k a h
    rw [List.foldl_cons] at h
    rcases ih _ _ _ h with hmem | hset
    · exact Or.inl (List.mem_cons_of_mem _ hmem)
    · rcases alget_alset_cases _ _ _ _ _ hset with rfl | hm
      · exact Or.inl (List.mem_cons_self _ _)
      · exact Or.inr hm

theorem buildLookup_mem (agg : List AggregatedRegion) (k : String) (a : AggregatedRegion)
    (h : alget (buildLookup agg) k = some a) : a ∈ agg := by
  rcases foldl_alset_mem agg [] k a h with hm | hnil
  · exact hm
  · rw [alget_nil] at hnil
    exact absurd hnil (by simp)

theorem alget_objAssign (props : List (String × Value)) (metrics : List (String × Int))
    (hnd : (metrics.map (fun kv => kv.1)).Nodup) (k : String) :
    alget (objAssign props metrics) k =
      match alget metrics k with
      | some v => some (.vnum v)
      | none => alget props k := by
  induction metrics generalizing props with
  | nil => simp [objAssign, alget_nil]
  | cons kv t ih =>
    have hnd' : (t.map (fun kv => kv.1)).Nodup := (List.nodup_cons.mp hnd).2
    have hnotin : kv.1 ∉ t.map (fun kv => kv.1) := (List.nodup_cons.mp hnd).1
    rw [show objAssign props (kv :: t) = objAssign (alset props kv.1 (.vnum kv.2)) t from rfl]
    rw [ih _ hnd', alget_cons]
    cases hk : kv.1 == k with
    | false =>
      have hne : k ≠ kv.1 := Ne.symm (beq_eq_false_iff_ne.mp hk)
      cases ht : alget t k <;>
        simp [ht, alget_alset_ne _ _ _ _ hne]
    | true =>
      have hke : kv.1 = k := beq_iff_eq.mp hk
      subst hke
      have ht : alget t kv.1 = none := by
        rw [alget_eq_none_iff]
        simpa [alkeys] using hnotin
      simp [ht, alget_alset_self]

theorem mergeFeature_snd (lk : List (String × AggregatedRegion)) (f : Feature) :
    (mergeFeature lk f).2 = matchedB lk f := by
  unfold mergeFeature matchedB
  by_cases hk : resolveKey (f.properties.getD []) = ""
  · simp [hk]
  · cases hg : alget lk (resolveKey (f.properties.getD [])) <;> simp [hk, hg]

/-! ### Metric-slot analysis for the cross-file positional collision -/

theorem aggregate_metrics_lookup (files : List FileMapping) (e : AggregatedRegion)
    (he : e ∈ aggregateByLgaWithMapping files) (mk : String) :
    alget e.metrics mk =
      if (cellsFor (contribStream files) e.key).any (fun c => c.1 == mk)
      then some (sumFor (cellsFor (contribStream files) e.key) mk)
      else none := by
  rw [(aggregate_mem_char files e he).2, alget_foldl_addCell]
  rfl

theorem cellsFor_cons (x : Contrib) (st : List Contrib) (k : String) :
    cellsFor (x :: st) k = (if x.1 == k then x.2.2 else []) ++ cellsFor st k := by
  unfold cellsFor
  rw [List.filter_cons]
  by_cases h : (x.1 == k) = true
  · rw [if_pos h, if_pos h, List.flatMap_cons]
  · rw [if_neg h, if_neg h]
    simp

theorem cellsFor_append (s1 s2 : List Contrib) (k : String) :
    cellsFor (s1 ++ s2) k = cellsFor s1 k ++ cellsFor s2 k := by
  unfold cellsFor
  rw [List.filter_append, List.flatMap_append]

theorem any_eq_not_isEmpty_filter {α : Type} (p : α → Bool) (l : List α) :
    l.any p = !(l.filter p).isEmpty := by
  induction l with
  | nil => rfl
  | cons a t ih => cases h : p a <;> simp [List.any_cons, List.filter_cons, h, ih]

theorem rowContrib_metricOne (vcs : List String) (r : Row) (c0 : String)
    (h0 : vcs.head? = some c0) :
    (rowContrib vcs r).filter (fun x => x.1 == metricKey 1) =
      match jsToNumber (rowGet r c0) with
      | some v => [(metricKey 1, v)]
      | none => [] := by
  cases vcs with
  | nil => simp at h0
  | cons ch vt =>
    have hc : ch = c0 := by simpa using h0
    subst hc
    unfold rowContrib
    rw [List.enum_cons, List.filterMap_cons]
    have htail : ((List.enumFrom 1 vt).filterMap
        (fun ic => (jsToNumber (rowGet r ic.2)).map (fun v => (metricKey (ic.1 + 1), v)))).filter
          (fun x => x.1 == metricKey 1) = [] := by
      apply List.filter_eq_nil_iff.mpr
      intro x hx
      obtain ⟨⟨i1, c1⟩, hicmem, hiceq⟩ := List.mem_filterMap.mp hx
      obtain ⟨v, hv, hxv⟩ := Option.map_eq_some'.mp hiceq
      have hge : 1 ≤ i1 := (List.mem_enumFrom hicmem).1
      intro hbeq
      have hx1 : x.1 = metricKey (i1 + 1) := by rw [← hxv]
      have : i1 + 1 = 1 := metricKey_inj _ _ (by rw [← hx1]; exact beq_iff_eq.mp hbeq)
      omega
    cases hnum : jsToNumber (rowGet r ch) with
    | none => simpa [hnum] using htail
    | some v => simp [hnum, List.filter_cons, htail]

theorem rows_metricOne (c : String) (vcs : List String) (c0 : String)
    (h0 : vcs.head? = some c0) (k : String) (rows : List Row) :
    (cellsFor (rows.filterMap (rowContribOf c vcs)) k).filter (fun x => x.1 == metricKey 1) =
      ((rows.filter (fun r => coerceName (rowGet r c) ≠ "" &&
          normalizeName (.vstr (coerceName (rowGet r c))) == k)).filterMap
        (fun r => jsToNumber (rowGet r c0))).map (fun v => (metricKey 1, v)) := by
  induction rows with
  | nil => rfl
  | cons r rows ih =>
    rw [List.filterMap_cons, List.filter_cons]
    by_cases hname : coerceName (rowGet r c) = ""
    · have h1 : rowContribOf c vcs r = none := by simp [rowContribOf, hname]
      have hcond : (decide (coerceName (rowGet r c) ≠ "") &&
          (normalizeName (.vstr (coerceName (rowGet r c))) == k)) = false := by
        simp [hname]
      rw [h1, hcond]
      simpa using ih
    · have h1 : rowContribOf c vcs r =
          some (normalizeName (.vstr (coerceName (rowGet r c))),
            coerceName (rowGet r c), rowContrib vcs r) := by
        simp [rowContribOf, hname]
      have hd : (decide (coerceName (rowGet r c) ≠ "")) = true := by simp [hname]
      rw [h1, cellsFor_cons, List.filter_append, hd, Bool.true_and]
      dsimp only
      by_cases hkey : (normalizeName (.vstr (coerceName (rowGet r c))) == k) = true
      · rw [if_pos hkey, if_pos hkey, List.filterMap_cons, rowContrib_metricOne vcs r c0 h0]
        cases hnum : jsToNumber (rowGet r c0) with
        | none => simpa [hnum] using ih
        | some v => simp [hnum, ih]
      · rw [if_neg hkey, if_neg hkey]
        simpa using ih

theorem fileContribs_metricOne (f : FileMapping) (c0 : String)
    (h0 : f.valueCols.head? = some c0) (k : String) :
    (cellsFor (fileContribs f) k).filter (fun x => x.1 == metricKey 1) =
      (firstColCells f k).map (fun v => (metricKey 1, v)) := by
  unfold fileContribs firstColCells
  cases hl : f.lgaCol with
  | none => rfl
  | some c =>
    dsimp only
    by_cases hcond : (decide (c = "") || f.valueCols.isEmpty) = true
    · rw [if_pos hcond, if_pos hcond]
      rfl
    · rw [if_neg hcond, if_neg hcond]
      rw [rows_metricOne c f.valueCols c0 h0 k f.rows]
      congr 1
      apply List.filterMap_congr
      intro r _
      rw [h0]
      rfl

theorem list_filterMap_eq_filter_map {α β γ : Type} (h : α → Option β) (g : α → β → γ)
    (d : β) (l : List α) :
    l.filterMap (fun a => (h a).map (g a)) =
      (l.filter (fun a => (h a).isSome)).map (fun a => g a ((h a).getD d)) := by
  induction l with
  | nil => rfl
  | cons a t ih => cases hh : h a <;> simp [List.filterMap_cons, List.filter_cons, hh, ih]

/-! ### Claim theorems -/

/-- C4: normalize is a total function over every input value: null and
undefined yield the empty string, any other value is string-coerced,
uppercased, filtered to `[A-Z0-9 ]` and trimmed (stated as equality with the
spec-side pipeline), and the result always consists of kept characters only;
totality is inherent in the Lean definition, so no input can raise. -/
theorem c4_normalize_total :
    (normalizeName .vnull = "" ∧ normalizeName .vundefined = "") ∧
    (∀ v : Value, normalizeName v = normalizeNameSpec v) ∧
    (∀ v : Value, ((normalizeName v).data.all isKeepChar) = true) := by
  refine ⟨⟨rfl, rfl⟩, ?_, ?_⟩
  · intro v
    cases v with
    | vnull => decide
    | vundefined => decide
    | vnum n => rfl
    | vnan => rfl
    | vstr s => rfl
  · intro v
    have hgen : ∀ X : List Char, ((trimSpaces (X.filter isKeepChar)).all isKeepChar) = true := by
      intro X
      apply List.all_eq_true.mpr
      intro c hc
      exact (List.mem_filter.mp (mem_trimSpaces _ _ hc)).2
    cases v with
    | vnull => decide
    | vundefined => decide
    | vnum n => exact hgen _
    | vnan => exact hgen _
    | vstr s => exact hgen _

/-- C5: normalization is idempotent: normalizing an already-normalized string
yields it unchanged, for every input value. -/
theorem c5_normalize_idempotent (v : Value) :
    normalizeName (.vstr (normalizeName v)) = normalizeName v := by
  cases v with
  | vnull => decide
  | vundefined => decide
  | vnum n => exact normalize_fixes_kept _
  | vnan => exact normalize_fixes_kept _
  | vstr s => exact normalize_fixes_kept _

/-- C6 counterexample: the code does not collapse internal whitespace, so
normalize("GREATER   GEELONG!!") keeps the three internal spaces and the two
normalizations the claim equates are different strings. -/
theorem c6_counterexample :
    normalizeName (.vstr "GREATER   GEELONG!!") = "GREATER   GEELONG" ∧
    normalizeName (.vstr "Greater Geelong") ≠ normalizeName (.vstr "GREATER   GEELONG!!") := by
  constructor
  · decide
  · decide

/-- C6 amended: normalize("Greater Geelong") yields "GREATER GEELONG", while
normalize("GREATER   GEELONG!!") yields "GREATER   GEELONG" — internal runs of
spaces are preserved, so the two results are not equal. -/
theorem c6_normalize_examples :
    normalizeName (.vstr "Greater Geelong") = "GREATER GEELONG" ∧
    normalizeName (.vstr "GREATER   GEELONG!!") = "GREATER   GEELONG" := by
  constructor
  · decide
  · decide

/-- C9: detectValueColumns treats a column as numeric exactly when at least
one row holds a numeric value in it, returns the numeric columns whose headers
match the vocabulary by case-insensitive substring when any exist, otherwise
the singleton of the first numeric column, otherwise the empty list (in
particular for the empty table) — stated as equality with the spec-side
description. -/
theorem c9_detect_value_columns (rows : List Row) :
    detectValueColumns rows = detectValueColumnsSpec rows := by
  cases rows with
  | nil => rfl
  | cons r0 rest =>
    unfold detectValueColumns detectValueColumnsSpec
    dsimp only
    generalize (alkeys r0).filter
      (fun c => (r0 :: rest).any fun r => (rowGet r c).isNumberType) = numeric
    cases numeric with
    | nil => rfl
    | cons c0 t =>
      have hrel := any_eq_not_isEmpty_filter hasValueVocab (c0 :: t)
      cases hany : (c0 :: t).any hasValueVocab with
      | true =>
        rw [hany] at hrel
        have hne : ((c0 :: t).filter hasValueVocab).isEmpty = false := by
          cases he : ((c0 :: t).filter hasValueVocab).isEmpty
          · rfl
          · rw [he] at hrel
            simp at hrel
        simp [hne, hany]
      | false =>
        rw [hany] at hrel
        have hemp : ((c0 :: t).filter hasValueVocab).isEmpty = true := by
          cases he : ((c0 :: t).filter hasValueVocab).isEmpty
          · rw [he] at hrel
            simp at hrel
          · rfl
        simp [hemp, hany]

/-- C10: in every list returned by aggregateByLgaWithMapping and by
aggregateByLga, the normalized keys of the entries are pairwise distinct, and
each entry's key equals normalize applied to its own display name. -/
theorem c10_keys_distinct_and_normalized :
    (∀ files : List FileMapping,
      ((aggregateByLgaWithMapping files).map (fun e => e.key)).Nodup ∧
      (aggregateByLgaWithMapping files).all
        (fun e => e.key == normalizeName (.vstr e.name)) = true) ∧
    (∀ filesRows : List (List Row),
      ((aggregateByLga filesRows).map (fun e => e.key)).Nodup ∧
      (aggregateByLga filesRows).all
        (fun e => e.key == normalizeName (.vstr e.name)) = true) := by
  have main : ∀ files : List FileMapping,
      ((aggregateByLgaWithMapping files).map (fun e => e.key)).Nodup ∧
      (aggregateByLgaWithMapping files).all
        (fun e => e.key == normalizeName (.vstr e.name)) = true := by
    intro files
    constructor
    · rw [aggregate_keys_char]
      exact firstKeys_nodup _
    · apply List.all_eq_true.mpr
      intro e he
      apply beq_iff_eq.mpr
      have h1 := (aggregate_mem_char files e he).1
      obtain ⟨c0, hfind, hname⟩ := Option.map_eq_some'.mp h1
      have hkeyb := List.find?_some hfind
      have hkey : c0.1 = e.key := beq_iff_eq.mp hkeyb
      have hinv := contribStream_key_normalized files c0 (List.mem_of_find?_eq_some hfind)
      rw [← hname, ← hkey, hinv]
  constructor
  · exact main
  · intro filesRows
    rw [aggregateByLga_eq]
    exact main _

/-- C1: for every list of file mappings, the aggregation has exactly one entry
per distinct normalized key of the contributing rows (mappings with a region
column and at least one value column, rows with a non-blank coerced region
cell), in first-seen insertion order; each entry's display name is the first
contributing row's raw trimmed name for its key; and each metric value is the
sum of the finitely-coercing tagged cell contributions for that key (present
exactly when at least one cell contributed to that metric slot). -/
theorem c1_aggregate_characterization (files : List FileMapping) :
    ((aggregateByLgaWithMapping files).map (fun e => e.key) =
      firstKeys ((contribStream files).map (fun c => c.1))) ∧
    (∀ e ∈ aggregateByLgaWithMapping files,
      ((contribStream files).find? (fun c => c.1 == e.key)).map (fun c => c.2.1) =
        some e.name) ∧
    (∀ e ∈ aggregateByLgaWithMapping files, ∀ mk : String,
      alget e.metrics mk =
        if (cellsFor (contribStream files) e.key).any (fun c => c.1 == mk)
        then some (sumFor (cellsFor (contribStream files) e.key) mk)
        else none) := by
  refine ⟨aggregate_keys_char files, ?_, ?_⟩
  · intro e he
    exact (aggregate_mem_char files e he).1
  · intro e he mk
    exact aggregate_metrics_lookup files e he mk

/-- Witness for C1: the characterization evaluated on the two demo files, at
the Melbourne bucket and its first metric slot. -/
theorem c1_aggregate_characterization_witness :
    ((aggregateByLgaWithMapping demoFiles).map (fun e => e.key) =
      firstKeys ((contribStream demoFiles).map (fun c => c.1))) ∧
    (((contribStream demoFiles).find? (fun c => c.1 == demoEntry.key)).map
      (fun c => c.2.1) = some demoEntry.name) ∧
    (alget demoEntry.metrics "metric_1" =
      if (cellsFor (contribStream demoFiles) demoEntry.key).any (fun c => c.1 == "metric_1")
      then some (sumFor (cellsFor (contribStream demoFiles) demoEntry.key) "metric_1")
      else none) := by
  obtain ⟨h1, h2, h3⟩ := c1_aggregate_characterization demoFiles
  exact ⟨h1, h2 demoEntry (by decide), h3 demoEntry (by decide) "metric_1"⟩

/-- C8: aggregation is total (the Lean embedding is a total function) and
degrades row-by-row: a null or blank-coercing region cell skips only that row;
a mapping with an unset region column or no value columns contributes nothing;
an empty table yields zero aggregated regions; a contributing row updates the
map with exactly its finitely-coercing cells, each tagged by position, so a
non-coercing cell omits only its own contribution without blocking the row's
other metrics or other rows. -/
theorem c8_aggregation_error_free :
    (coerceName .vnull = "" ∧ coerceName .vundefined = "") ∧
    (∀ (c : String) (vcs : List String) (m : List (String × Bucket)) (r : Row),
      coerceName (rowGet r c) = "" → processRow c vcs m r = m) ∧
    (∀ (m : List (String × Bucket)) (f : FileMapping),
      f.lgaCol = none ∨ f.lgaCol = some "" ∨ f.valueCols = [] → stepFile m f = m) ∧
    (∀ f : FileMapping, f.rows = [] → aggregateByLgaWithMapping [f] = []) ∧
    (∀ (c : String) (vcs : List String) (m : List (String × Bucket)) (r : Row),
      coerceName (rowGet r c) ≠ "" →
        processRow c vcs m r =
          applyContrib m (normalizeName (.vstr (coerceName (rowGet r c))),
            coerceName (rowGet r c), rowContrib vcs r)) ∧
    (∀ (vcs : List String) (r : Row),
      rowContrib vcs r =
        ((vcs.enum).filter (fun ic : Nat × String => (jsToNumber (rowGet r ic.2)).isSome)).map
          (fun ic : Nat × String =>
            (metricKey (ic.1 + 1), (jsToNumber (rowGet r ic.2)).getD 0))) := by
  refine ⟨⟨rfl, rfl⟩, ?_, ?_, ?_, ?_, ?_⟩
  · intro c vcs m r h
    simp [processRow, h]
  · intro m f h
    unfold stepFile
    rcases h with h | h | h
    · rw [h]
    · rw [h]
      simp
    · cases hl : f.lgaCol with
      | none => rfl
      | some c => simp [h]
  · intro f h
    unfold aggregateByLgaWithMapping
    rw [show List.foldl stepFile [] [f] = stepFile [] f from rfl]
    unfold stepFile
    cases hl : f.lgaCol with
    | none => rfl
    | some c =>
      by_cases hc : (c = "" || f.valueCols.isEmpty) = true
      · simp [hc]
      · simp [hc, h]
  · intro c vcs m r h
    rw [processRow_eq]
    simp [rowContribOf, h]
  · intro vcs r
    unfold rowContrib
    exact list_filterMap_eq_filter_map (fun ic : Nat × String => jsToNumber (rowGet r ic.2))
      (fun (ic : Nat × String) (v : Int) => (metricKey (ic.1 + 1), v)) 0 vcs.enum

/-- Witness for C8: the skip rules evaluated on concrete rows (a blank region
cell, an unset region column, an empty table, a row with a non-numeric
cell). -/
theorem c8_aggregation_error_free_witness :
    processRow "LGA" ["v"] [] [("LGA", .vstr "  ")] = [] ∧
    stepFile [] (⟨"f.csv", [[("LGA", .vstr "X")]], none, ["v"]⟩ : FileMapping) = [] ∧
    aggregateByLgaWithMapping [⟨"f.csv", [], some "LGA", ["v"]⟩] = [] ∧
    processRow "LGA" ["v"] [] [("LGA", .vstr "X"), ("v", .vstr "N/A")] =
      applyContrib []
        (normalizeName (.vstr (coerceName (rowGet [("LGA", .vstr "X"), ("v", .vstr "N/A")] "LGA"))),
          coerceName (rowGet [("LGA", .vstr "X"), ("v", .vstr "N/A")] "LGA"),
          rowContrib ["v"] [("LGA", .vstr "X"), ("v", .vstr "N/A")]) := by
  obtain ⟨h1, h2, h3, h4, h5, h6⟩ := c8_aggregation_error_free
  exact ⟨h2 "LGA" ["v"] [] _ (by decide), h3 [] _ (Or.inl rfl), h4 _ rfl,
    h5 "LGA" ["v"] [] _ (by decide)⟩

/-- C3 counterexample: a region whose only value cell is non-numeric yields a
bucket with an empty metric record; a feature matching it is counted by
`_attached_count` although its properties are unchanged, i.e. it received no
metric — so `_attached_count` is not the number of features that received at
least one metric. -/
theorem c3_counterexample :
    aggregateByLgaWithMapping [emptyMetricsFile] = [⟨"X", "X", []⟩] ∧
    (mergeMetricsIntoGeoJSON geoX (aggregateByLgaWithMapping [emptyMetricsFile])).attached_count
      = 1 ∧
    (mergeMetricsIntoGeoJSON geoX (aggregateByLgaWithMapping [emptyMetricsFile])).features
      = geoX := by
  refine ⟨by decide, by decide, by decide⟩

/-- C3 amended: `_total_features` is the total feature count and
`_attached_count` is the number of features whose resolved name hits an
aggregated bucket (each such feature receives all of that bucket's metric
pairs, which may be none when the bucket's metric record is empty); a feature
whose key has no bucket is counted only in the total. -/
theorem c3_merge_summary (geo : List Feature) (agg : List AggregatedRegion) :
    (mergeMetricsIntoGeoJSON geo agg).total_features = geo.length ∧
    (mergeMetricsIntoGeoJSON geo agg).attached_count =
      geo.countP (matchedB (buildLookup agg)) := by
  constructor
  · rfl
  · unfold mergeMetricsIntoGeoJSON
    dsimp only
    rw [List.countP_map]
    apply List.countP_congr
    intro f _
    have h := mergeFeature_snd (buildLookup agg) f
    simp only [Function.comp_apply, h]

/-- C2 counterexample: a feature whose first truthy candidate field normalizes
to the empty string.  Under the claim's resolution rule the feature's name is
"!!!", its key is empty and matches no bucket, so the claim says it receives
no metrics; the code instead falls through to the `name` property and attaches
the YARRA bucket's metric. -/
theorem c2_counterexample :
    claimResolve [("LGA_NAME", .vstr "!!!"), ("name", .vstr "Yarra")] = "" ∧
    alget (buildLookup yarraAgg) "" = none ∧
    (mergeMetricsIntoGeoJSON [punctFeature] yarraAgg).features =
      [⟨some [("LGA_NAME", .vstr "!!!"), ("name", .vstr "Yarra"), ("metric_1", .vnum 3)]⟩] := by
  refine ⟨by decide, by decide, by decide⟩

/-- C2 amended: resolution takes the first truthy candidate field, falling
back to the generic `name` property both when no candidate is truthy and when
the chosen candidate's normalized name is empty; with that rule, a matched
feature receives every metric pair of its bucket (overwriting same-named
keys), every other property is unchanged, and a feature with no bucket or no
resolvable name keeps its properties unchanged — no input errors. -/
theorem c2_merge_attach_frame (agg : List AggregatedRegion) (geo : List Feature)
    (hnd : ∀ a ∈ agg, (a.metrics.map (fun kv => kv.1)).Nodup) :
    ((mergeMetricsIntoGeoJSON geo agg).features =
      geo.map (fun f => (mergeFeature (buildLookup agg) f).1)) ∧
    (∀ f ∈ geo,
      (resolveKey (f.properties.getD []) = "" →
        (mergeFeature (buildLookup agg) f).1.properties = some (f.properties.getD [])) ∧
      (alget (buildLookup agg) (resolveKey (f.properties.getD [])) = none →
        (mergeFeature (buildLookup agg) f).1.properties = some (f.properties.getD [])) ∧
      (∀ hit, resolveKey (f.properties.getD []) ≠ "" →
        alget (buildLookup agg) (resolveKey (f.properties.getD [])) = some hit →
          (mergeFeature (buildLookup agg) f).1.properties =
            some (objAssign (f.properties.getD []) hit.metrics) ∧
          (∀ kv ∈ hit.metrics,
            alget (objAssign (f.properties.getD []) hit.metrics) kv.1 = some (.vnum kv.2)) ∧
          (∀ k2, k2 ∉ hit.metrics.map (fun kv => kv.1) →
            alget (objAssign (f.properties.getD []) hit.metrics) k2 =
              alget (f.properties.getD []) k2))) := by
  constructor
  · unfold mergeMetricsIntoGeoJSON
    dsimp only
    rw [List.map_map]
    rfl
  · intro f _
    refine ⟨?_, ?_, ?_⟩
    · intro hk
      unfold mergeFeature
      simp [hk]
    · intro hg
      unfold mergeFeature
      by_cases hk : resolveKey (f.properties.getD []) = ""
      · simp [hk]
      · simp [hk, hg]
    · intro hit hk hg
      have hmem : hit ∈ agg := buildLookup_mem agg _ hit hg
      have hndm : (hit.metrics.map (fun kv => kv.1)).Nodup := hnd hit hmem
      refine ⟨?_, ?_, ?_⟩
      · unfold mergeFeature
        simp [hk, hg]
      · intro kv hkv
        rw [alget_objAssign _ _ hndm]
        have : alget hit.metrics kv.1 = some kv.2 := by
          apply alget_of_mem_nodup
          · have : alkeys hit.metrics = hit.metrics.map (fun kv => kv.1) := rfl
            rw [this]
            exact hndm
          · exact hkv
        rw [this]
      · intro k2 hk2
        rw [alget_objAssign _ _ hndm]
        have : alget hit.metrics k2 = none := by
          rw [alget_eq_none_iff]
          have : alkeys hit.metrics = hit.metrics.map (fun kv => kv.1) := rfl
          rw [this]
          exact hk2
        rw [this]

/-- Witness for C2 at the YARRA aggregation and a feature with an unrelated
`pop` property: the metric is attached, the unrelated key is untouched. -/
theorem c2_merge_attach_frame_witness :
    ((mergeMetricsIntoGeoJSON [yarraFeature] yarraAgg).features =
      [yarraFeature].map (fun f => (mergeFeature (buildLookup yarraAgg) f).1)) ∧
    ((mergeFeature (buildLookup yarraAgg) yarraFeature).1.properties =
      some (objAssign (yarraFeature.properties.getD []) yarraEntry.metrics)) ∧
    (alget (objAssign (yarraFeature.properties.getD []) yarraEntry.metrics) "metric_1" =
      some (.vnum 3)) ∧
    (alget (objAssign (yarraFeature.properties.getD []) yarraEntry.metrics) "pop" =
      alget (yarraFeature.properties.getD []) "pop") := by
  obtain ⟨h1, h2⟩ := c2_merge_attach_frame yarraAgg [yarraFeature] (by decide)
  obtain ⟨hA, hB, hC⟩ := h2 yarraFeature (by decide)
  have h4 := hC yarraEntry (by decide) (by decide)
  exact ⟨h1, h4.1, h4.2.1 ("metric_1", 3) (by decide), h4.2.2 "pop" (by decide)⟩

/-- C7: positional metric slots are shared across files — for two file
mappings whose first value columns differ in name, every aggregated entry's
`metric_1` slot holds the sum of the first-value-column contributions of both
files to that entry's normalized key (and is absent only when neither file
contributes a coercible first-column cell for the key). -/
theorem c7_positional_slots_shared (fA fB : FileMapping) (cA cB : String)
    (hA : fA.valueCols.head? = some cA) (hB : fB.valueCols.head? = some cB)
    (hne : cA ≠ cB) (e : AggregatedRegion)
    (he : e ∈ aggregateByLgaWithMapping [fA, fB]) :
    alget e.metrics (metricKey 1) =
      if (firstColCells fA e.key ++ firstColCells fB e.key).isEmpty
      then none
      else some ((firstColCells fA e.key).sum + (firstColCells fB e.key).sum) := by
  rw [aggregate_metrics_lookup [fA, fB] e he (metricKey 1)]
  have hst : contribStream [fA, fB] = fileContribs fA ++ fileContribs fB := by
    simp [contribStream]
  rw [hst, cellsFor_append]
  have hfil : (cellsFor (fileContribs fA) e.key ++ cellsFor (fileContribs fB) e.key).filter
      (fun x => x.1 == metricKey 1) =
      (firstColCells fA e.key ++ firstColCells fB e.key).map (fun v => (metricKey 1, v)) := by
    rw [List.filter_append, fileContribs_metricOne fA cA hA, fileContribs_metricOne fB cB hB,
      List.map_append]
  have hany : (cellsFor (fileContribs fA) e.key ++ cellsFor (fileContribs fB) e.key).any
      (fun x => x.1 == metricKey 1) =
      !((firstColCells fA e.key ++ firstColCells fB e.key).isEmpty) := by
    rw [any_eq_not_isEmpty_filter, hfil]
    cases firstColCells fA e.key ++ firstColCells fB e.key <;> simp
  have hsum : sumFor (cellsFor (fileContribs fA) e.key ++ cellsFor (fileContribs fB) e.key)
      (metricKey 1) = (firstColCells fA e.key).sum + (firstColCells fB e.key).sum := by
    unfold sumFor
    rw [hfil, List.map_map]
    rw [show ((fun x : String × Int => x.2) ∘ fun v : Int => ((metricKey 1 : String), v)) = id
      from rfl]
    rw [List.map_id, List.sum_append]
  rw [hany, hsum]
  cases hemp : (firstColCells fA e.key ++ firstColCells fB e.key).isEmpty <;> simp [hemp]

/-- Witness for C7: two one-row files with first value columns named Spend and
Loss both feed metric_1 of the YARRA bucket, 10 + 5. -/
theorem c7_positional_slots_shared_witness :
    alget c7Entry.metrics (metricKey 1) =
      if (firstColCells c7FileA c7Entry.key ++ firstColCells c7FileB c7Entry.key).isEmpty
      then none
      else some ((firstColCells c7FileA c7Entry.key).sum +
        (firstColCells c7FileB c7Entry.key).sum) := by
  exact c7_positional_slots_shared c7FileA c7FileB "Spend" "Loss" rfl rfl
    (by decide) c7Entry (by decide)
